import Mathlib

/-!
Verification of the subdomain-ownership and DNS-record logic of the
UTokyo Students domain service (`src/index.js`, class `Subdomain`).

The JavaScript methods are shallowly embedded as pure Lean functions over an
explicit state:

* the Firestore `domains` collection becomes an association list from
  document id to `TenantDoc`;
* the managed DNS zone becomes a list of `DnsRecord`s;
* `async` methods that `throw` become `Except DnsError` values; the
  per-instance `_subdomains` cache is omitted because every mutation
  invalidates it, so within one sequential request the cached reads agree
  with reads of the current document;
* JavaScript strings are Lean `String`s (ASCII case mapping stands in for
  `toLowerCase`/`toUpperCase`); the `x || ''` guards on nullable arguments
  become `Option String` parameters.
-/

namespace UTokyo

/-- JS `aValue || ''` on a possibly-null/undefined string argument. -/
def jsOrEmpty : Option String → String
  | none => ""
  | some s => s

/-- JS `String.prototype.toLowerCase`, restricted to ASCII case mapping. -/
def jsToLower (s : String) : String := ⟨s.data.map Char.toLower⟩

/-- JS `String.prototype.toUpperCase`, restricted to ASCII case mapping. -/
def jsToUpper (s : String) : String := ⟨s.data.map Char.toUpper⟩

/-- JS `String.prototype.split` with a one-character separator, on the
underlying character list: `"a.b.".split('.') = ["a","b",""]`,
`"".split('.') = [""]`. -/
def splitChar (c : Char) : List Char → List (List Char)
  | [] => [[]]
  | x :: xs =>
    if x = c then [] :: splitChar c xs
    else
      match splitChar c xs with
      | [] => [[x]]
      | h :: t => (x :: h) :: t

/-- JS `s.split('.').pop()`: the trailing dot-segment of a string. -/
def jsSplitDotPop (s : String) : String := ⟨(splitChar '.' s.data).getLastD []⟩

/-- JS `s.split('.').length` (used by `deleteRecord`). -/
def jsSplitDotLength (s : String) : Nat := (splitChar '.' s.data).length

/-- JS `s.includes('.')`. -/
def hasDot (s : String) : Bool := s.data.contains '.'

/-- JS `s.split('\n')`. -/
def jsSplitNewline (s : String) : List String := (splitChar '\n' s.data).map (⟨·⟩)

/-- An ASCII whitespace character, as trimmed by JS `String.prototype.trim`. -/
def isJsWhitespace (c : Char) : Bool :=
  c = ' ' || c = '\t' || c = '\n' || c = '\r' || c = '\x0b' || c = '\x0c'

/-- JS `String.prototype.trim` (ASCII whitespace). -/
def jsTrim (s : String) : String :=
  ⟨((s.data.dropWhile isJsWhitespace).reverse.dropWhile isJsWhitespace).reverse⟩

/-- JS `s.endsWith(suffix)`. -/
def jsEndsWith (s suffix : String) : Bool := suffix.data.isSuffixOf s.data

/-- JS `s.slice(0, -n)` for `0 < n ≤ s.length`: drop the last `n` characters. -/
def jsDropRight (s : String) (n : Nat) : String := ⟨s.data.take (s.data.length - n)⟩

/-- JS `Array.prototype.join('\n')` on a list of strings. -/
def jsJoinNewline (l : List String) : String :=
  ⟨((l.map String.data).intersperse ['\n']).flatten⟩

instance {ε α : Type} [DecidableEq ε] [DecidableEq α] : DecidableEq (Except ε α) := fun
  | .ok a, .ok b =>
    if h : a = b then .isTrue (by rw [h]) else .isFalse (fun he => h (by cases he; rfl))
  | .ok _, .error _ => .isFalse (fun he => Except.noConfusion he)
  | .error _, .ok _ => .isFalse (fun he => Except.noConfusion he)
  | .error e, .error f =>
    if h : e = f then .isTrue (by rw [h]) else .isFalse (fun he => h (by cases he; rfl))

/-- One character of the base-label character class `[a-z0-9]`
(code points 97–122 are `a`–`z`, 48–57 are `0`–`9`). -/
def isLowerAlnum (c : Char) : Bool :=
  (97 ≤ c.toNat && c.toNat ≤ 122) || (48 ≤ c.toNat && c.toNat ≤ 57)

/-- The base-label regex `^[a-z0-9]+(-[a-z0-9]+)*$` of
`Subdomain.createSubdomain`: dash-separated groups, each a nonempty run of
lowercase alphanumerics (consecutive, leading or trailing dashes give an
empty group and are rejected). -/
def matchesLabelPattern (s : String) : Bool :=
  (splitChar '-' s.data).all (fun p => !p.isEmpty && p.all isLowerAlnum)

/-- The constant `TYPE_WHITELIST = [...]` from `src/index.js`. -/
def TYPE_WHITELIST : List String :=
  ["a", "cname", "aaaa", "caa", "txt", "mx", "ns", "spf", "srv", "sshfp"]

/-- The constant `DOMAIN = 'u-tokyo.app.'` from `src/index.js`. -/
def DOMAIN : String := "u-tokyo.app."

/-- The constant `DEFAULT_TTL = 300` from `src/index.js`. -/
def DEFAULT_TTL : Nat := 300

/-- The errors thrown by the `Subdomain` class. -/
inductive DnsError where
  /-- Thrown as `'Subdomain mismatch'` (spec name: `OwnershipMismatch`). -/
  | subdomainMismatch
  /-- Thrown as `'Invalid type'` (spec name: `InvalidType`). -/
  | invalidType
  /-- Thrown as `'No such subdomain'` (spec name: `TenantNotFound`). -/
  | noSuchSubdomain
  /-- Thrown as `'Invalid name'` (spec name: `InvalidName`). -/
  | invalidName
  /-- Thrown as `'Domain already exists'` (spec name: `AlreadyExists`). -/
  | alreadyExists
  /-- Thrown as `TypeError('Not a top-level subdomain')` (spec name: `InvalidArgument`). -/
  | notTopLevel
deriving DecidableEq, Repr

/-- A provider resource-record set `{name, type, data, ttl}`. -/
structure DnsRecord where
  name : String
  type : String
  data : List String
  ttl : Nat
deriving DecidableEq, Repr

/-- A document of the Firestore `domains` collection:
`{created_by, created_date, subdomains}` (the server timestamp is a `Nat`). -/
structure TenantDoc where
  created_by : String
  created_date : Nat
  subdomains : List String
deriving DecidableEq, Repr

/-- The persistent state the `Subdomain` class acts on: the `domains`
collection keyed by document id, and the provider zone's record list. -/
structure St where
  domains : List (String × TenantDoc)
  zone : List DnsRecord
deriving DecidableEq, Repr

/-- Embeds `db.collection('domains').doc(id).get()` as an association-list lookup. -/
def getDoc (st : St) (id : String) : Option TenantDoc :=
  (st.domains.find? (fun p => p.1 == id)).map (·.2)

/-- Embeds `docRef.update({...})` on the `domains` association list: rewrite the
(unique) document with the given id.  Updating an absent document is modeled
as a no-op; the store adapter's own failure modes are out of scope (spec §1). -/
def updateDocList (id : String) (f : TenantDoc → TenantDoc) :
    List (String × TenantDoc) → List (String × TenantDoc)
  | [] => []
  | p :: ps => if p.1 == id then (p.1, f p.2) :: ps else p :: updateDocList id f ps

/-- Embeds `docRef.update({...})` applied to the document with the given id. -/
def updateDoc (st : St) (id : String) (f : TenantDoc → TenantDoc) : St :=
  { st with domains := updateDocList id f st.domains }

/-- Modelled from the spec: the document store's `doc(id).set(...)`
(external collaborator, §1) persists the document under the given id,
replacing the (unique) document that already had that id, if any. -/
def setDocList (id : String) (d : TenantDoc) :
    List (String × TenantDoc) → List (String × TenantDoc)
  | [] => [(id, d)]
  | p :: ps => if p.1 == id then (id, d) :: ps else p :: setDocList id d ps

/-- Embeds `db.collection('domains').doc(id).set(...)`. -/
def setDoc (st : St) (id : String) (d : TenantDoc) : St :=
  { st with domains := setDocList id d st.domains }

/-- Modelled from the spec: the DNS provider's `zone.getRecords({name, type})`
(external collaborator, §1) returns the record sets with exactly that
fully-qualified name and that type; types are matched uppercase, "the
provider's matching convention" (spec §4.3). -/
def zoneGetRecords (zone : List DnsRecord) (name type : String) : List DnsRecord :=
  zone.filter (fun r => r.name == name && r.type == type)

/-- Modelled from the spec: `zone.getRecords({name})` with no type filter. -/
def zoneGetRecordsByName (zone : List DnsRecord) (name : String) : List DnsRecord :=
  zone.filter (fun r => r.name == name)

/-- Modelled from the spec: `zone.deleteRecords(records)` removes the given
record sets from the zone. -/
def zoneDeleteRecords (zone : List DnsRecord) (del : List DnsRecord) : List DnsRecord :=
  zone.filter (fun r => !del.contains r)

/-- Modelled from the spec: `zone.createChange({add, delete})` removes the
`delete` record sets and adds the `add` record in one change batch; the
provider stores record types uppercase (spec §4.3). -/
def zoneCreateChange (zone : List DnsRecord) (add : DnsRecord) (del : List DnsRecord) :
    List DnsRecord :=
  zone.filter (fun r => !del.contains r) ++ [{ add with type := jsToUpper add.type }]

/-- Embeds `Subdomain#getAllSubdomains` (`src/index.js:111`): the tenant document's
`subdomains` array, or `'No such subdomain'` if the document does not exist. -/
def getAllSubdomains (st : St) (id : String) : Except DnsError (List String) :=
  match getDoc st id with
  | none => .error .noSuchSubdomain
  | some d => .ok d.subdomains

/-- Embeds `Subdomain#assertSubdomain` (`src/index.js:131`): lowercase the name,
take its trailing dot-segment as the base, fail with `'Subdomain mismatch'`
unless the base is in the tenant's subdomain set, else return the lowercased
name. -/
def assertSubdomain (st : St) (id : String) (aSubdomain : Option String) :
    Except DnsError String := do
  let subdomain := jsToLower (jsOrEmpty aSubdomain)
  let baseSubdomain := jsSplitDotPop subdomain
  let subdomains ← getAllSubdomains st id
  if subdomains.contains baseSubdomain then
    pure subdomain
  else
    .error .subdomainMismatch

/-- Embeds `Subdomain#addSubdomain` (`src/index.js:143`): assert ownership, then
append the name to the tenant's set if not already tracked (`arrayUnion`). -/
def addSubdomain (st : St) (id : String) (aSubdomain : Option String) :
    Except DnsError St := do
  let subdomain ← assertSubdomain st id aSubdomain
  let subdomains ← getAllSubdomains st id
  if subdomains.contains subdomain then
    pure st
  else
    pure (updateDoc st id (fun d => { d with subdomains := d.subdomains ++ [subdomain] }))

/-- Embeds `Subdomain#removeSubdomain` (`src/index.js:155`): lowercase, and when the
name differs from its own trailing dot-segment, remove it from the tenant's
set (`arrayRemove`); otherwise do nothing.  The method body has no throw
path, so it is a total function on the state. -/
def removeSubdomain (st : St) (id : String) (aSubdomain : Option String) : St :=
  let subdomain := jsToLower (jsOrEmpty aSubdomain)
  let baseSubdomain := jsSplitDotPop subdomain
  if subdomain ≠ baseSubdomain then
    updateDoc st id (fun d => { d with subdomains := d.subdomains.filter (· ≠ subdomain) })
  else
    st

/-- Embeds `Subdomain#validateType` (`src/index.js:167`): lowercase, and fail with
`'Invalid type'` unless the result is whitelisted. -/
def validateType (aType : Option String) : Except DnsError String :=
  let type := jsToLower (jsOrEmpty aType)
  if TYPE_WHITELIST.contains type then .ok type else .error .invalidType

/-- Embeds `Subdomain#createRecord` (`src/index.js:176`): validate the type,
lowercase the name, qualify it with `DOMAIN`, and split the value on
newlines, trimming each line and dropping empty lines. -/
def createRecord (aType aName aValue : Option String) : Except DnsError DnsRecord := do
  let value := jsOrEmpty aValue
  let type ← validateType aType
  let name := jsToLower (jsOrEmpty aName)
  pure { name := name ++ "." ++ DOMAIN
         type := type
         data := ((jsSplitNewline value).map jsTrim).filter (fun v => v ≠ "")
         ttl := DEFAULT_TTL }

/-- Embeds `Subdomain#getRecords` (`src/index.js:193`): all provider records under
the fully-qualified name, any type. -/
def getRecords (st : St) (subdomain : String) : List DnsRecord :=
  zoneGetRecordsByName st.zone (subdomain ++ "." ++ DOMAIN)

/-- Embeds `Subdomain#getRecordsByType` (`src/index.js:201`): validate the type and
fetch the provider records for the (unnormalized) qualified name and the
uppercased type. -/
def getRecordsByType (st : St) (aType : Option String) (aName : String) :
    Except DnsError (List DnsRecord) := do
  let type ← validateType aType
  pure (zoneGetRecords st.zone (aName ++ "." ++ DOMAIN) (jsToUpper type))

/-- A formatted record `{name, data, type}` as returned by the read APIs. -/
structure FormattedRecord where
  name : String
  data : String
  type : String
deriving DecidableEq, Repr

/-- The loop body of `Subdomain#getRecordsByTypeFormatted`
(`src/index.js:211`): strip the `'.' + DOMAIN` suffix when present,
lowercase the name, join the data lines with newline, uppercase the type. -/
def formatRecord (r : DnsRecord) : FormattedRecord :=
  let suffix := "." ++ DOMAIN
  let plainName :=
    if jsEndsWith r.name suffix then jsDropRight r.name suffix.data.length else r.name
  { name := jsToLower plainName
    data := jsJoinNewline r.data
    type := jsToUpper r.type }

/-- Embeds `Subdomain#getRecordsByTypeFormatted` (`src/index.js:211`). -/
def getRecordsByTypeFormatted (st : St) (aType : Option String) (aName : String) :
    Except DnsError (List FormattedRecord) := do
  let records ← getRecordsByType st aType aName
  pure (records.map formatRecord)

/-- Embeds `Subdomain#updateRecord` (`src/index.js:253`): register the subdomain
(`addSubdomain`), fetch the old record set for the (type, name) pair, build
the new record, and issue one change that deletes the old set and adds the
new record — no diffing. -/
def updateRecord (st : St) (id : String) (aType aName aNewValue : String) :
    Except DnsError St := do
  let st1 ← addSubdomain st id (some aName)
  let oldRecords ← getRecordsByType st1 (some aType) aName
  let newRecord ← createRecord (some aType) (some aName) (some aNewValue)
  pure { st1 with zone := zoneCreateChange st1.zone newRecord oldRecords }

/-- Embeds `Subdomain#deleteRecord` (`src/index.js:266`): assert ownership, delete
all provider records for the (type, name) pair, and — only when the
lowercased name splits into at least two dot-segments — remove the name
from the tenant's set when no records remain under its qualified name. -/
def deleteRecord (st : St) (id : String) (aType aName : String) :
    Except DnsError St := do
  let subdomain ← assertSubdomain st id (some aName)
  let oldRecords ← getRecordsByType st (some aType) aName
  let st1 := { st with zone := zoneDeleteRecords st.zone oldRecords }
  if jsSplitDotLength subdomain < 2 then
    pure st1
  else
    let leftRecords := getRecords st1 subdomain
    if leftRecords.length < 1 then
      pure (removeSubdomain st1 id (some subdomain))
    else
      pure st1

/-- Embeds `Subdomain.domainExists` (`src/index.js:278`): lowercase, reject dotted
names with `TypeError('Not a top-level subdomain')`, and report whether any
tenant's `subdomains` array contains the name (`array-contains` query). -/
def domainExists (st : St) (aName : String) : Except DnsError Bool :=
  let name := jsToLower aName
  if hasDot name then
    .error .notTopLevel
  else
    .ok (st.domains.any (fun p => p.2.subdomains.contains name))

/-- Embeds `Subdomain.createSubdomain` (`src/index.js:289`): lowercase the name,
fail with `'Invalid name'` unless it matches the base-label pattern, fail
with `'Domain already exists'` when some tenant already tracks it, else
persist a fresh document `{created_by, created_date, subdomains: [name]}`
under a fresh uuid and return the id.  The fresh uuid and the server
timestamp are parameters of the embedding. -/
def createSubdomain (st : St) (aName aOwner : String) (freshId : String) (now : Nat) :
    Except DnsError (String × St) := do
  let name := jsToLower aName
  if matchesLabelPattern name then
    let ex ← domainExists st name
    if ex then
      .error .alreadyExists
    else
      pure (freshId,
        setDoc st freshId { created_by := aOwner, created_date := now, subdomains := [name] })
  else
    .error .invalidName

/-! ### Helper lemmas about the JS string operations -/

theorem splitChar_ne_nil (c : Char) (l : List Char) : splitChar c l ≠ [] := by
  induction l with
  | nil => simp [splitChar]
  | cons x xs ih =>
    simp only [splitChar]
    split
    · simp
    · cases h : splitChar c xs with
      | nil => simp
      | cons h t => simp

theorem splitChar_of_not_contains (c : Char) (l : List Char) (h : l.contains c = false) :
    splitChar c l = [l] := by
  induction l with
  | nil => simp [splitChar]
  | cons x xs ih =>
    simp only [List.contains_cons, Bool.or_eq_false_iff, beq_eq_false_iff_ne] at h
    have h' : splitChar c xs = [xs] := ih h.2
    simp only [splitChar, h']
    rw [if_neg (fun hxc : x = c => h.1 hxc.symm)]

theorem getLastD_splitChar_not_contains (c : Char) (l : List Char) :
    ((splitChar c l).getLastD []).contains c = false := by
  induction l with
  | nil => simp [splitChar]
  | cons x xs ih =>
    cases h : splitChar c xs with
    | nil => exact absurd h (splitChar_ne_nil c xs)
    | cons p t =>
      rw [h] at ih
      by_cases hxc : x = c
      · rw [splitChar, if_pos hxc, h]
        rw [List.getLastD_cons]
        exact ih
      · rw [splitChar, if_neg hxc, h]
        cases t with
        | nil =>
          rw [List.getLastD_cons, List.getLastD_nil]
          rw [List.getLastD_cons, List.getLastD_nil] at ih
          rw [List.contains_cons, Bool.or_eq_false_iff]
          refine ⟨?_, ih⟩
          rw [beq_eq_false_iff_ne]
          exact fun he => hxc he.symm
        | cons q t' =>
          rw [List.getLastD_cons, List.getLastD_cons]
          rw [List.getLastD_cons, List.getLastD_cons] at ih
          exact ih

theorem two_le_splitChar_length_iff (c : Char) (l : List Char) :
    2 ≤ (splitChar c l).length ↔ l.contains c = true := by
  induction l with
  | nil => simp [splitChar]
  | cons x xs ih =>
    cases h : splitChar c xs with
    | nil => exact absurd h (splitChar_ne_nil c xs)
    | cons p t =>
      rw [h] at ih
      by_cases hxc : x = c
      · rw [splitChar, if_pos hxc, h, List.contains_cons]
        have hbeq : (c == x) = true := by rw [beq_iff_eq]; exact hxc.symm
        simp only [hbeq, Bool.true_or, List.length_cons, iff_true]
        omega
      · rw [splitChar, if_neg hxc, h, List.contains_cons]
        have hbeq : (c == x) = false := by
          rw [beq_eq_false_iff_ne]; exact fun he => hxc he.symm
        simp only [hbeq, Bool.false_or, List.length_cons]
        simp only [List.length_cons] at ih
        exact ih

theorem mem_splitChar_cover (c : Char) (l : List Char) (x : Char) (hx : x ∈ l) :
    x = c ∨ ∃ p ∈ splitChar c l, x ∈ p := by
  induction l with
  | nil => cases hx
  | cons y ys ih =>
    rcases List.mem_cons.mp hx with rfl | hmem
    · by_cases hyc : x = c
      · exact Or.inl hyc
      · cases h : splitChar c ys with
        | nil => exact absurd h (splitChar_ne_nil c ys)
        | cons p t =>
          refine Or.inr ⟨x :: p, ?_, by simp⟩
          rw [splitChar, if_neg hyc, h]
          simp
    · rcases ih hmem with rfl | ⟨p, hp, hxp⟩
      · exact Or.inl rfl
      · by_cases hyc : y = c
        · refine Or.inr ⟨p, ?_, hxp⟩
          rw [splitChar, if_pos hyc]
          simp [hp]
        · cases h : splitChar c ys with
          | nil => exact absurd h (splitChar_ne_nil c ys)
          | cons q t =>
            rw [h] at hp
            rcases List.mem_cons.mp hp with rfl | hpt
            · refine Or.inr ⟨y :: p, ?_, by simp [hxp]⟩
              rw [splitChar, if_neg hyc, h]
              simp
            · refine Or.inr ⟨p, ?_, hxp⟩
              rw [splitChar, if_neg hyc, h]
              simp [hpt]

theorem jsSplitDotPop_eq_self_iff (s : String) :
    jsSplitDotPop s = s ↔ hasDot s = false := by
  constructor
  · intro h
    have hlast := getLastD_splitChar_not_contains '.' s.data
    have hd : ((splitChar '.' s.data).getLastD []) = s.data := by
      have := congrArg String.data h
      simpa [jsSplitDotPop] using this
    rw [hd] at hlast
    simpa [hasDot] using hlast
  · intro h
    have hsp : splitChar '.' s.data = [s.data] :=
      splitChar_of_not_contains _ _ (by simpa [hasDot] using h)
    simp [jsSplitDotPop, hsp]

theorem hasDot_jsSplitDotPop (s : String) : hasDot (jsSplitDotPop s) = false := by
  simpa [hasDot, jsSplitDotPop] using getLastD_splitChar_not_contains '.' s.data

theorem jsSplitDotLength_lt_two_iff (s : String) :
    jsSplitDotLength s < 2 ↔ hasDot s = false := by
  unfold jsSplitDotLength hasDot
  have h := two_le_splitChar_length_iff '.' s.data
  constructor
  · intro hl
    cases hc : s.data.contains '.'
    · rfl
    · exfalso
      have := h.mpr hc
      omega
  · intro hc
    by_contra hl
    have h2 : 2 ≤ (splitChar '.' s.data).length := by omega
    rw [h.mp h2] at hc
    simp at hc

theorem isLowerAlnum_toLower (x : Char) (h : isLowerAlnum x = true) : x.toLower = x := by
  simp only [isLowerAlnum, Bool.or_eq_true, Bool.and_eq_true, decide_eq_true_eq] at h
  simp only [Char.toLower]
  rw [if_neg]
  rcases h with ⟨h1, h2⟩ | ⟨h1, h2⟩ <;> (intro hc; omega)

theorem matchesLabelPattern_no_dot (s : String) (h : matchesLabelPattern s = true) :
    hasDot s = false := by
  by_contra hdot
  simp only [hasDot, Bool.not_eq_false, List.contains_iff_exists_mem_beq] at hdot
  obtain ⟨x, hx, hbeq⟩ := hdot
  have hxe : x = '.' := by simpa [eq_comm] using (beq_iff_eq.mp hbeq).symm
  subst hxe
  rcases mem_splitChar_cover '-' s.data '.' hx with habs | ⟨p, hp, hxp⟩
  · exact absurd habs (by decide)
  · simp only [matchesLabelPattern, List.all_eq_true] at h
    have hpp := h p hp
    simp only [Bool.and_eq_true, List.all_eq_true] at hpp
    have := hpp.2 '.' hxp
    exact absurd this (by decide)

theorem matchesLabelPattern_toLower_fixed (s : String) (h : matchesLabelPattern s = true) :
    jsToLower s = s := by
  have hall : ∀ x ∈ s.data, x.toLower = x := by
    intro x hx
    rcases mem_splitChar_cover '-' s.data x hx with rfl | ⟨p, hp, hxp⟩
    · decide
    · simp only [matchesLabelPattern, List.all_eq_true] at h
      have hpp := h p hp
      simp only [Bool.and_eq_true, List.all_eq_true] at hpp
      exact isLowerAlnum_toLower x (hpp.2 x hxp)
  have hmap : ∀ (l : List Char), (∀ x ∈ l, x.toLower = x) → l.map Char.toLower = l := by
    intro l
    induction l with
    | nil => intro _; rfl
    | cons a as ih =>
      intro hl
      simp only [List.map_cons, hl a (by simp), List.cons.injEq, true_and]
      exact ih (fun x hx => hl x (by simp [hx]))
  simp [jsToLower, hmap s.data hall]

/-! ### Helper lemmas about the document store -/

theorem find?_updateDocList_self (id : String) (f : TenantDoc → TenantDoc)
    (l : List (String × TenantDoc)) :
    (updateDocList id f l).find? (fun p => p.1 == id) =
      (l.find? (fun p => p.1 == id)).map (fun p => (p.1, f p.2)) := by
  induction l with
  | nil => simp [updateDocList]
  | cons p ps ih =>
    by_cases hp : (p.1 == id) = true
    · simp only [updateDocList, if_pos hp]
      simp [List.find?, hp]
    · simp only [updateDocList, if_neg hp]
      simp only [List.find?, hp]
      exact ih

theorem find?_updateDocList_other (id id' : String) (f : TenantDoc → TenantDoc)
    (l : List (String × TenantDoc)) (h : id' ≠ id) :
    (updateDocList id f l).find? (fun p => p.1 == id') =
      l.find? (fun p => p.1 == id') := by
  induction l with
  | nil => simp [updateDocList]
  | cons p ps ih =>
    by_cases hp : (p.1 == id) = true
    · have hp1 : p.1 = id := beq_iff_eq.mp hp
      have hne : (p.1 == id') = false := by
        rw [beq_eq_false_iff_ne, hp1]; exact fun he => h he.symm
      simp only [updateDocList, if_pos hp]
      simp [List.find?, hne]
    · simp only [updateDocList, if_neg hp]
      by_cases hq : (p.1 == id') = true
      · simp [List.find?, hq]
      · have hq' : (p.1 == id') = false := by simpa using hq
        simp only [List.find?, hq']
        exact ih

theorem getDoc_updateDoc_self (st : St) (id : String) (f : TenantDoc → TenantDoc) :
    getDoc (updateDoc st id f) id = (getDoc st id).map f := by
  unfold getDoc updateDoc
  rw [find?_updateDocList_self]
  cases st.domains.find? (fun p => p.1 == id) <;> rfl

theorem getDoc_updateDoc_other (st : St) (id id' : String) (f : TenantDoc → TenantDoc)
    (h : id' ≠ id) :
    getDoc (updateDoc st id f) id' = getDoc st id' := by
  unfold getDoc updateDoc
  rw [find?_updateDocList_other _ _ _ _ h]

theorem zone_updateDoc (st : St) (id : String) (f : TenantDoc → TenantDoc) :
    (updateDoc st id f).zone = st.zone := rfl

theorem find?_setDocList_self (id : String) (d : TenantDoc)
    (l : List (String × TenantDoc)) :
    (setDocList id d l).find? (fun p => p.1 == id) = some (id, d) := by
  induction l with
  | nil => simp [setDocList, List.find?]
  | cons p ps ih =>
    by_cases hp : (p.1 == id) = true
    · simp only [setDocList, if_pos hp]
      simp [List.find?]
    · have hp' : (p.1 == id) = false := by simpa using hp
      simp only [setDocList, if_neg hp, List.find?, hp']
      exact ih

theorem find?_setDocList_other (id id' : String) (d : TenantDoc)
    (l : List (String × TenantDoc)) (h : id' ≠ id) :
    (setDocList id d l).find? (fun p => p.1 == id') =
      l.find? (fun p => p.1 == id') := by
  have hne : (id == id') = false := by
    rw [beq_eq_false_iff_ne]; exact fun he => h he.symm
  induction l with
  | nil => simp [setDocList, List.find?, hne]
  | cons p ps ih =>
    by_cases hp : (p.1 == id) = true
    · have hp1 : p.1 = id := beq_iff_eq.mp hp
      have hne2 : (p.1 == id') = false := by
        rw [beq_eq_false_iff_ne, hp1]; exact fun he => h he.symm
      simp only [setDocList, if_pos hp]
      simp [List.find?, hne, hne2]
    · simp only [setDocList, if_neg hp]
      by_cases hq : (p.1 == id') = true
      · simp [List.find?, hq]
      · have hq' : (p.1 == id') = false := by simpa using hq
        simp only [List.find?, hq']
        exact ih

theorem getDoc_setDoc_self (st : St) (id : String) (d : TenantDoc) :
    getDoc (setDoc st id d) id = some d := by
  unfold getDoc setDoc
  rw [find?_setDocList_self]
  rfl

theorem getDoc_setDoc_other (st : St) (id id' : String) (d : TenantDoc) (h : id' ≠ id) :
    getDoc (setDoc st id d) id' = getDoc st id' := by
  unfold getDoc setDoc
  rw [find?_setDocList_other _ _ _ _ h]

/-! ### Helper lemma about the zone model -/

theorem filter_deleted_filter_eq_nil {α : Type} [DecidableEq α]
    (z : List α) (p : α → Bool) :
    (z.filter (fun r => !(z.filter p).contains r)).filter p = [] := by
  rw [List.filter_eq_nil_iff]
  intro r hr
  have h1 := List.mem_filter.mp hr
  intro hp
  have hmem : r ∈ z.filter p := List.mem_filter.mpr ⟨h1.1, hp⟩
  have h2 := h1.2
  simp only [Bool.not_eq_true', List.contains_eq_any_beq, List.any_eq_false] at h2
  exact absurd (by simp : (r == r) = true) (h2 r hmem)

theorem whitelist_toLower_fixed (ty : String) (h : ty ∈ TYPE_WHITELIST) :
    jsToLower ty = ty := by
  simp only [TYPE_WHITELIST, List.mem_cons, List.not_mem_nil, or_false] at h
  rcases h with rfl | rfl | rfl | rfl | rfl | rfl | rfl | rfl | rfl | rfl <;> decide

theorem validateType_of_mem (ty : String) (h : ty ∈ TYPE_WHITELIST) :
    validateType (some ty) = Except.ok ty := by
  have hc : TYPE_WHITELIST.contains ty = true :=
    List.contains_iff_exists_mem_beq.mpr ⟨ty, h, by simp⟩
  simp only [validateType, jsOrEmpty]
  rw [whitelist_toLower_fixed ty h, if_pos hc]

theorem contains_of_mem {l : List String} {a : String} (h : a ∈ l) :
    l.contains a = true :=
  List.contains_iff_exists_mem_beq.mpr ⟨a, h, by simp⟩

theorem mem_of_contains {l : List String} {a : String} (h : l.contains a = true) :
    a ∈ l := by
  obtain ⟨b, hb, he⟩ := List.contains_iff_exists_mem_beq.mp h
  exact (beq_iff_eq.mp he) ▸ hb

theorem except_bind_ok {ε α β : Type} (a : α) (f : α → Except ε β) :
    (Except.ok a >>= f : Except ε β) = f a := rfl

theorem assertSubdomain_eq (st : St) (id : String) (nameOpt : Option String) (d : TenantDoc)
    (hdoc : getDoc st id = some d) :
    assertSubdomain st id nameOpt =
      (if d.subdomains.contains (jsSplitDotPop (jsToLower (jsOrEmpty nameOpt))) then
        Except.ok (jsToLower (jsOrEmpty nameOpt))
      else
        Except.error DnsError.subdomainMismatch) := by
  unfold assertSubdomain getAllSubdomains
  rw [hdoc]
  rfl

theorem getAllSubdomains_eq (st : St) (id : String) (d : TenantDoc)
    (hdoc : getDoc st id = some d) :
    getAllSubdomains st id = Except.ok d.subdomains := by
  unfold getAllSubdomains
  rw [hdoc]

theorem getRecordsByType_of_mem (st : St) (ty nm : String) (hty : ty ∈ TYPE_WHITELIST) :
    getRecordsByType st (some ty) nm =
      Except.ok (zoneGetRecords st.zone (nm ++ "." ++ DOMAIN) (jsToUpper ty)) := by
  unfold getRecordsByType
  rw [validateType_of_mem ty hty]
  rfl

theorem any_setDocList_of (id : String) (d : TenantDoc) (l : List (String × TenantDoc))
    (q : String × TenantDoc → Bool) (h : q (id, d) = true) :
    ((setDocList id d l).any q) = true := by
  induction l with
  | nil => simp [setDocList, h]
  | cons p ps ih =>
    by_cases hp : (p.1 == id) = true
    · simp [setDocList, hp, h]
    · simp [setDocList, hp, ih]

/-- A sample tenant document used by the concrete witnesses. -/
def sampleDoc : TenantDoc := ⟨"owner0", 0, ["base"]⟩

/-- A sample state with one tenant document tracking the base label `base`. -/
def sampleSt : St := ⟨[("t", sampleDoc)], []⟩

/-! ### The claims -/

/-- C1: for every tenant whose document exists and every name string,
`assertOwnership` (`assertSubdomain` in the code) lowercases the name, takes
its trailing dot-segment as the base, and succeeds returning the lowercased
full name if and only if that base is a member of the tenant's tracked
subdomain set; otherwise it fails with `OwnershipMismatch`. -/
theorem C1_assertOwnership (st : St) (id name : String) (d : TenantDoc)
    (hdoc : getDoc st id = some d) :
    assertSubdomain st id (some name) =
      (if d.subdomains.contains (jsSplitDotPop (jsToLower name)) then
        Except.ok (jsToLower name)
      else
        Except.error DnsError.subdomainMismatch) := by
  unfold assertSubdomain getAllSubdomains
  rw [hdoc]
  rfl

theorem C1_assertOwnership_witness :
    assertSubdomain sampleSt "t" (some "Foo.Base") =
      (if sampleDoc.subdomains.contains (jsSplitDotPop (jsToLower "Foo.Base")) then
        Except.ok (jsToLower "Foo.Base")
      else
        Except.error DnsError.subdomainMismatch) :=
  C1_assertOwnership sampleSt "t" "Foo.Base" sampleDoc (by decide)

/-- C2 counterexample: `"UP"` does not match the base-label pattern
`^[a-z0-9]+(-[a-z0-9]+)*$`, yet `createSubdomain "UP"` does not fail with
`InvalidName`: the code lowercases the name to `"up"` before matching, and
on an empty store it creates the tenant document. -/
theorem C2_counterexample :
    matchesLabelPattern "UP" = false ∧
    createSubdomain ⟨[], []⟩ "UP" "owner" "id1" 0 =
      Except.ok ("id1", ⟨[("id1", ⟨"owner", 0, ["up"]⟩)], []⟩) := by
  exact ⟨by decide, by decide⟩

/-- C2 (amended): for every name whose LOWERCASED form does not match the
base-label pattern — which still covers `"-bad"` and `"a..b"`, but not
`"UP"` — `createSubdomain` fails with `InvalidName`; the error return means
no tenant document is persisted. -/
theorem C2_invalidName (st : St) (name owner freshId : String) (now : Nat)
    (h : matchesLabelPattern (jsToLower name) = false) :
    createSubdomain st name owner freshId now = Except.error DnsError.invalidName := by
  simp [createSubdomain, h]

theorem C2_invalidName_witness :
    createSubdomain ⟨[], []⟩ "-bad" "owner" "id1" 0 = Except.error DnsError.invalidName :=
  C2_invalidName ⟨[], []⟩ "-bad" "owner" "id1" 0 (by decide)

/-- C6: read-time formatting strips the parent-domain suffix from the
record's name, lowercases it, joins the multi-value data list with newline
and uppercases the type — so the provider record
`{name: "www.base.u-tokyo.app.", data: ["1.2.3.4","5.6.7.8"], type: "A"}`
formats to `{name: "www.base", data: "1.2.3.4\n5.6.7.8", type: "A"}`. -/
theorem C6_formatRecord :
    formatRecord ⟨"www.base.u-tokyo.app.", "A", ["1.2.3.4", "5.6.7.8"], DEFAULT_TTL⟩ =
      ⟨"www.base", "1.2.3.4\n5.6.7.8", "A"⟩ ∧
    ∀ r : DnsRecord, jsEndsWith r.name ("." ++ DOMAIN) = true →
      formatRecord r =
        ⟨jsToLower (jsDropRight r.name ("." ++ DOMAIN).data.length),
         jsJoinNewline r.data, jsToUpper r.type⟩ := by
  constructor
  · decide
  · intro r h
    simp [formatRecord, h]

theorem C6_formatRecord_witness :
    formatRecord ⟨"www.base.u-tokyo.app.", "A", ["1.2.3.4"], DEFAULT_TTL⟩ =
      ⟨jsToLower (jsDropRight "www.base.u-tokyo.app." ("." ++ DOMAIN).data.length),
       jsJoinNewline ["1.2.3.4"], jsToUpper "A"⟩ :=
  C6_formatRecord.2 ⟨"www.base.u-tokyo.app.", "A", ["1.2.3.4"], DEFAULT_TTL⟩ (by decide)

/-- C7: for every input string, `validateType` lowercases it and returns
the lowercase form if and only if it is in the fixed whitelist, failing
with `InvalidType` otherwise; in particular `validateType "TXT"` returns
`"txt"` and `validateType "ptr"` fails with `InvalidType`. -/
theorem C7_validateType (raw : String) :
    validateType (some raw) =
      (if TYPE_WHITELIST.contains (jsToLower raw) then Except.ok (jsToLower raw)
       else Except.error DnsError.invalidType) ∧
    validateType (some "TXT") = Except.ok "txt" ∧
    validateType (some "ptr") = Except.error DnsError.invalidType :=
  ⟨rfl, by decide, by decide⟩

/-- C8: `removeSubdomain` lowercases the name; when the lowercased name is
not itself a base label (it contains a dot) it is removed from the tenant's
tracked subdomain set, and when it is a bare base label the state is left
entirely unchanged. -/
theorem C8_removeSubdomain (st : St) (id : String) (nameOpt : Option String) (d : TenantDoc)
    (hdoc : getDoc st id = some d) :
    (hasDot (jsToLower (jsOrEmpty nameOpt)) = true →
      getDoc (removeSubdomain st id nameOpt) id =
        some { d with subdomains :=
          d.subdomains.filter (· ≠ jsToLower (jsOrEmpty nameOpt)) }) ∧
    (hasDot (jsToLower (jsOrEmpty nameOpt)) = false →
      removeSubdomain st id nameOpt = st) := by
  constructor
  · intro hdot
    have hne : jsToLower (jsOrEmpty nameOpt) ≠ jsSplitDotPop (jsToLower (jsOrEmpty nameOpt)) := by
      intro he
      have := (jsSplitDotPop_eq_self_iff (jsToLower (jsOrEmpty nameOpt))).mp he.symm
      rw [hdot] at this
      cases this
    unfold removeSubdomain
    rw [if_pos hne, getDoc_updateDoc_self, hdoc]
    rfl
  · intro hdot
    have heq : jsSplitDotPop (jsToLower (jsOrEmpty nameOpt)) = jsToLower (jsOrEmpty nameOpt) :=
      (jsSplitDotPop_eq_self_iff _).mpr hdot
    unfold removeSubdomain
    rw [if_neg (fun hne => hne heq.symm)]

theorem C8_removeSubdomain_witness :
    (hasDot (jsToLower (jsOrEmpty (some "www.base"))) = true →
      getDoc (removeSubdomain sampleSt "t" (some "www.base")) "t" =
        some { sampleDoc with subdomains :=
          sampleDoc.subdomains.filter (· ≠ jsToLower (jsOrEmpty (some "www.base"))) }) ∧
    (hasDot (jsToLower (jsOrEmpty (some "www.base"))) = false →
      removeSubdomain sampleSt "t" (some "www.base") = sampleSt) :=
  C8_removeSubdomain sampleSt "t" (some "www.base") sampleDoc (by decide)

/-- C10: `removeSubdomain` checks neither ownership nor membership and never
fails: with no hypothesis on the state, any dotted input — even one that was
never tracked, in a state where its trailing base belongs to no set — issues
the `arrayRemove` update; any undotted input returns with the state
untouched; a null/undefined input is likewise a no-op.  As embedded it is a
total function into `St`, mirroring the absence of any throw path in the
method body. -/
theorem C10_removeSubdomain_unchecked (st : St) (id : String) (inp : Option String) :
    (hasDot (jsToLower (jsOrEmpty inp)) = true →
      removeSubdomain st id inp =
        updateDoc st id
          (fun d =>
            { d with subdomains := d.subdomains.filter (· ≠ jsToLower (jsOrEmpty inp)) })) ∧
    (hasDot (jsToLower (jsOrEmpty inp)) = false →
      removeSubdomain st id inp = st) ∧
    removeSubdomain st id none = st := by
  refine ⟨?_, ?_, ?_⟩
  · intro hdot
    have hne : jsToLower (jsOrEmpty inp) ≠ jsSplitDotPop (jsToLower (jsOrEmpty inp)) := by
      intro he
      have := (jsSplitDotPop_eq_self_iff (jsToLower (jsOrEmpty inp))).mp he.symm
      rw [hdot] at this
      cases this
    unfold removeSubdomain
    rw [if_pos hne]
  · intro hdot
    have heq : jsSplitDotPop (jsToLower (jsOrEmpty inp)) = jsToLower (jsOrEmpty inp) :=
      (jsSplitDotPop_eq_self_iff _).mpr hdot
    unfold removeSubdomain
    rw [if_neg (fun hne => hne heq.symm)]
  · rfl

theorem C10_removeSubdomain_unchecked_witness :
    removeSubdomain ⟨[], []⟩ "ghost" (some "never.tracked") =
      updateDoc ⟨[], []⟩ "ghost"
        (fun d =>
          { d with
            subdomains := d.subdomains.filter (· ≠ jsToLower (jsOrEmpty (some "never.tracked"))) }) :=
  (C10_removeSubdomain_unchecked ⟨[], []⟩ "ghost" (some "never.tracked")).1 (by decide)

/-- C3: for every tenant owning base subdomain `base` and every whitelisted
type, `upsertRecord` (`updateRecord` in the code) of `www.base ↦ 1.2.3.4`
followed by `getRecordsByType` yields exactly one record whose data is
`["1.2.3.4"]`, `www.base` is afterwards in the tenant's tracked subdomain
set, and the zone change is unconditionally delete-the-old-record-set-then-
add-the-new-record for the (type, name) pair — even when the new value
equals the old one, since the change never inspects the old data. -/
theorem C3_upsert_then_get (st : St) (id ty : String) (d : TenantDoc)
    (hdoc : getDoc st id = some d)
    (hbase : "base" ∈ d.subdomains)
    (hty : ty ∈ TYPE_WHITELIST) :
    ∃ st', updateRecord st id ty "www.base" "1.2.3.4" = Except.ok st' ∧
      getRecordsByType st' (some ty) "www.base" =
        Except.ok [⟨"www.base" ++ "." ++ DOMAIN, jsToUpper ty, ["1.2.3.4"], DEFAULT_TTL⟩] ∧
      (∃ d', getDoc st' id = some d' ∧ "www.base" ∈ d'.subdomains) ∧
      st'.zone = zoneCreateChange st.zone
        ⟨"www.base" ++ "." ++ DOMAIN, ty, ["1.2.3.4"], DEFAULT_TTL⟩
        (zoneGetRecords st.zone ("www.base" ++ "." ++ DOMAIN) (jsToUpper ty)) := by
  have hbc : d.subdomains.contains "base" = true := contains_of_mem hbase
  have hassert : assertSubdomain st id (some "www.base") = Except.ok "www.base" := by
    rw [assertSubdomain_eq st id (some "www.base") d hdoc]
    have hpop : jsSplitDotPop (jsToLower (jsOrEmpty (some "www.base"))) = "base" := by decide
    rw [hpop, if_pos hbc]
    decide
  have hrec : createRecord (some ty) (some "www.base") (some "1.2.3.4") =
      Except.ok ⟨"www.base" ++ "." ++ DOMAIN, ty, ["1.2.3.4"], DEFAULT_TTL⟩ := by
    unfold createRecord
    rw [validateType_of_mem ty hty, except_bind_ok]
    have hn : jsToLower (jsOrEmpty (some "www.base")) = "www.base" := by decide
    have hd : ((jsSplitNewline (jsOrEmpty (some "1.2.3.4"))).map jsTrim).filter
        (fun v => v ≠ "") = ["1.2.3.4"] := by decide
    rw [hn, hd]
    rfl
  -- the state produced by addSubdomain: st unchanged, or the leaf appended
  by_cases hw : d.subdomains.contains "www.base" = true
  case pos =>
    have hadd : addSubdomain st id (some "www.base") = Except.ok st := by
      unfold addSubdomain
      rw [hassert, except_bind_ok, getAllSubdomains_eq st id d hdoc, except_bind_ok, if_pos hw]
      rfl
    refine ⟨{ st with zone := zoneCreateChange st.zone ⟨"www.base" ++ "." ++ DOMAIN, ty, ["1.2.3.4"], DEFAULT_TTL⟩ (zoneGetRecords st.zone ("www.base" ++ "." ++ DOMAIN) (jsToUpper ty)) }, ?_, ?_, ?_, ?_⟩
    · unfold updateRecord
      rw [hadd, except_bind_ok, getRecordsByType_of_mem st ty "www.base" hty,
        except_bind_ok, hrec, except_bind_ok]
      rfl
    · rw [getRecordsByType_of_mem _ ty "www.base" hty]
      show Except.ok (zoneGetRecords (zoneCreateChange st.zone _ _) _ _) = _
      unfold zoneCreateChange zoneGetRecords
      rw [List.filter_append]
      rw [filter_deleted_filter_eq_nil st.zone
        (fun r => r.name == "www.base" ++ "." ++ DOMAIN && r.type == jsToUpper ty)]
      simp
    · exact ⟨d, hdoc, mem_of_contains hw⟩
    · rfl
  case neg =>
    have hadd : addSubdomain st id (some "www.base") =
        Except.ok (updateDoc st id
          (fun dd => { dd with subdomains := dd.subdomains ++ ["www.base"] })) := by
      unfold addSubdomain
      rw [hassert, except_bind_ok, getAllSubdomains_eq st id d hdoc, except_bind_ok, if_neg hw]
      rfl
    refine ⟨{ updateDoc st id (fun dd => { dd with subdomains := dd.subdomains ++ ["www.base"] }) with zone := zoneCreateChange st.zone ⟨"www.base" ++ "." ++ DOMAIN, ty, ["1.2.3.4"], DEFAULT_TTL⟩ (zoneGetRecords st.zone ("www.base" ++ "." ++ DOMAIN) (jsToUpper ty)) }, ?_, ?_, ?_, ?_⟩
    · unfold updateRecord
      rw [hadd, except_bind_ok, getRecordsByType_of_mem _ ty "www.base" hty,
        except_bind_ok, hrec, except_bind_ok]
      rfl
    · rw [getRecordsByType_of_mem _ ty "www.base" hty]
      show Except.ok (zoneGetRecords (zoneCreateChange st.zone _ _) _ _) = _
      unfold zoneCreateChange zoneGetRecords
      rw [List.filter_append]
      rw [filter_deleted_filter_eq_nil st.zone
        (fun r => r.name == "www.base" ++ "." ++ DOMAIN && r.type == jsToUpper ty)]
      simp
    · refine ⟨{ d with subdomains := d.subdomains ++ ["www.base"] }, ?_, by simp⟩
      show getDoc (updateDoc st id _) id = _
      rw [getDoc_updateDoc_self, hdoc]
      rfl
    · rfl

theorem C3_upsert_then_get_witness :
    ∃ st', updateRecord sampleSt "t" "a" "www.base" "1.2.3.4" = Except.ok st' ∧
      getRecordsByType st' (some "a") "www.base" =
        Except.ok [⟨"www.base" ++ "." ++ DOMAIN, jsToUpper "a", ["1.2.3.4"], DEFAULT_TTL⟩] ∧
      (∃ d', getDoc st' "t" = some d' ∧ "www.base" ∈ d'.subdomains) ∧
      st'.zone = zoneCreateChange sampleSt.zone
        ⟨"www.base" ++ "." ++ DOMAIN, "a", ["1.2.3.4"], DEFAULT_TTL⟩
        (zoneGetRecords sampleSt.zone ("www.base" ++ "." ++ DOMAIN) (jsToUpper "a")) :=
  C3_upsert_then_get sampleSt "t" "a" sampleDoc (by decide) (by decide) (by decide)

/-- C4: for every tenant and owned (lowercase) name, `deleteRecord` deletes
all provider records for the (type, name) pair; when the name contains a dot
(a leaf) and no provider records remain under the leaf's own fully-qualified
name, the leaf is removed from the tenant's tracked subdomain set, and when
records remain the set is untouched; for a base name without a dot the base
entry is never removed from the tracked set, regardless of how many records
remain. -/
theorem C4_deleteRecord (st : St) (id ty name : String) (d : TenantDoc)
    (hdoc : getDoc st id = some d)
    (hlower : jsToLower name = name)
    (hown : jsSplitDotPop name ∈ d.subdomains)
    (hty : ty ∈ TYPE_WHITELIST) :
    ∃ st', deleteRecord st id ty name = Except.ok st' ∧
      st'.zone = zoneDeleteRecords st.zone
        (zoneGetRecords st.zone (name ++ "." ++ DOMAIN) (jsToUpper ty)) ∧
      zoneGetRecords st'.zone (name ++ "." ++ DOMAIN) (jsToUpper ty) = [] ∧
      (hasDot name = false → getDoc st' id = some d) ∧
      (hasDot name = true →
        (zoneGetRecordsByName st'.zone (name ++ "." ++ DOMAIN) = [] →
          getDoc st' id = some { d with subdomains := d.subdomains.filter (· ≠ name) }) ∧
        (zoneGetRecordsByName st'.zone (name ++ "." ++ DOMAIN) ≠ [] →
          getDoc st' id = some d)) := by
  have hassert : assertSubdomain st id (some name) = Except.ok name := by
    rw [assertSubdomain_eq st id (some name) d hdoc]
    show (if d.subdomains.contains (jsSplitDotPop (jsToLower name)) = true then
      Except.ok (jsToLower name) else Except.error DnsError.subdomainMismatch) = _
    rw [hlower, if_pos (contains_of_mem hown)]
  have hz1nil : zoneGetRecords (zoneDeleteRecords st.zone
      (zoneGetRecords st.zone (name ++ "." ++ DOMAIN) (jsToUpper ty)))
      (name ++ "." ++ DOMAIN) (jsToUpper ty) = [] := by
    unfold zoneGetRecords zoneDeleteRecords
    exact filter_deleted_filter_eq_nil st.zone _
  unfold deleteRecord
  rw [hassert, except_bind_ok, getRecordsByType_of_mem st ty name hty, except_bind_ok]
  by_cases hdot : hasDot name = true
  case neg =>
    have hdot' : hasDot name = false := by simpa using hdot
    have hlen : jsSplitDotLength name < 2 := (jsSplitDotLength_lt_two_iff name).mpr hdot'
    rw [if_pos hlen]
    refine ⟨{ st with zone := zoneDeleteRecords st.zone (zoneGetRecords st.zone (name ++ "." ++ DOMAIN) (jsToUpper ty)) }, rfl, rfl, hz1nil, fun _ => hdoc, ?_⟩
    intro h
    exact absurd h hdot
  case pos =>
    have hlen : ¬ jsSplitDotLength name < 2 := by
      intro hl
      rw [(jsSplitDotLength_lt_two_iff name).mp hl] at hdot
      cases hdot
    rw [if_neg hlen]
    have hne : name ≠ jsSplitDotPop name := by
      intro he
      have h2 := (jsSplitDotPop_eq_self_iff name).mp he.symm
      rw [hdot] at h2
      cases h2
    by_cases hleft : zoneGetRecordsByName (zoneDeleteRecords st.zone
        (zoneGetRecords st.zone (name ++ "." ++ DOMAIN) (jsToUpper ty)))
        (name ++ "." ++ DOMAIN) = []
    case pos =>
      have hlen1 : (getRecords { st with zone := zoneDeleteRecords st.zone (zoneGetRecords st.zone (name ++ "." ++ DOMAIN) (jsToUpper ty)) } name).length < 1 := by
        show (zoneGetRecordsByName _ _).length < 1
        rw [hleft]
        decide
      rw [if_pos hlen1]
      have hrm : removeSubdomain { st with zone := zoneDeleteRecords st.zone (zoneGetRecords st.zone (name ++ "." ++ DOMAIN) (jsToUpper ty)) } id (some name) = updateDoc { st with zone := zoneDeleteRecords st.zone (zoneGetRecords st.zone (name ++ "." ++ DOMAIN) (jsToUpper ty)) } id (fun dd => { dd with subdomains := dd.subdomains.filter (· ≠ name) }) := by
        unfold removeSubdomain
        rw [(show jsToLower (jsOrEmpty (some name)) = name from hlower), if_pos hne]
      rw [hrm]
      refine ⟨_, rfl, ?_, ?_, ?_, ?_⟩
      · rw [zone_updateDoc]
      · rw [zone_updateDoc]
        exact hz1nil
      · intro h
        rw [h] at hdot
        cases hdot
      · refine fun _ => ⟨fun _ => ?_, fun hne2 => ?_⟩
        · rw [getDoc_updateDoc_self]
          rw [(show getDoc { st with zone := zoneDeleteRecords st.zone (zoneGetRecords st.zone (name ++ "." ++ DOMAIN) (jsToUpper ty)) } id = some d from hdoc)]
          rfl
        · rw [zone_updateDoc] at hne2
          exact absurd hleft hne2
    case neg =>
      have hlen1 : ¬ (getRecords { st with zone := zoneDeleteRecords st.zone (zoneGetRecords st.zone (name ++ "." ++ DOMAIN) (jsToUpper ty)) } name).length < 1 := by
        intro hl
        have hl2 : (zoneGetRecordsByName (zoneDeleteRecords st.zone (zoneGetRecords st.zone (name ++ "." ++ DOMAIN) (jsToUpper ty))) (name ++ "." ++ DOMAIN)).length < 1 := hl
        have h0 : (zoneGetRecordsByName (zoneDeleteRecords st.zone (zoneGetRecords st.zone (name ++ "." ++ DOMAIN) (jsToUpper ty))) (name ++ "." ++ DOMAIN)).length = 0 := by
          omega
        exact hleft (List.length_eq_zero.mp h0)
      rw [if_neg hlen1]
      refine ⟨{ st with zone := zoneDeleteRecords st.zone (zoneGetRecords st.zone (name ++ "." ++ DOMAIN) (jsToUpper ty)) }, rfl, rfl, hz1nil, ?_, ?_⟩
      · intro h
        rw [h] at hdot
        cases hdot
      · exact fun _ => ⟨fun he => absurd he hleft, fun _ => hdoc⟩

theorem C4_deleteRecord_witness :
    ∃ st', deleteRecord sampleSt "t" "a" "base" = Except.ok st' ∧
      st'.zone = zoneDeleteRecords sampleSt.zone
        (zoneGetRecords sampleSt.zone ("base" ++ "." ++ DOMAIN) (jsToUpper "a")) ∧
      zoneGetRecords st'.zone ("base" ++ "." ++ DOMAIN) (jsToUpper "a") = [] ∧
      (hasDot "base" = false → getDoc st' "t" = some sampleDoc) ∧
      (hasDot "base" = true →
        (zoneGetRecordsByName st'.zone ("base" ++ "." ++ DOMAIN) = [] →
          getDoc st' "t" = some { sampleDoc with
            subdomains := sampleDoc.subdomains.filter (· ≠ "base") }) ∧
        (zoneGetRecordsByName st'.zone ("base" ++ "." ++ DOMAIN) ≠ [] →
          getDoc st' "t" = some sampleDoc)) :=
  C4_deleteRecord sampleSt "t" "a" "base" sampleDoc (by decide) (by decide) (by decide)
    (by decide)

/-- C5: for every name matching the base-label pattern and not yet claimed
by any tenant, `createSubdomain` (under a fresh document id) succeeds,
`domainExists` then returns true, and a subsequent `createSubdomain` of the
same name by any owner fails with `AlreadyExists` — base labels are
globally unique across all tenants, since `domainExists` queries every
tenant document. -/
theorem C5_createSubdomain_unique (st : St) (N owner owner2 id1 id2 : String)
    (now1 now2 : Nat)
    (hpat : matchesLabelPattern N = true)
    (hnew : st.domains.any (fun p => p.2.subdomains.contains N) = false) :
    ∃ st', createSubdomain st N owner id1 now1 = Except.ok (id1, st') ∧
      domainExists st' N = Except.ok true ∧
      createSubdomain st' N owner2 id2 now2 = Except.error DnsError.alreadyExists := by
  have hlow : jsToLower N = N := matchesLabelPattern_toLower_fixed N hpat
  have hdot : hasDot N = false := matchesLabelPattern_no_dot N hpat
  have hex0 : domainExists st N = Except.ok false := by
    simp only [domainExists]
    rw [hlow, hdot, if_neg (by simp : ¬ (false = true)), hnew]
  refine ⟨setDoc st id1 ⟨owner, now1, [N]⟩, ?_, ?_, ?_⟩
  · unfold createSubdomain
    rw [hlow, if_pos hpat, hex0, except_bind_ok]
    rfl
  · have hany : ((setDoc st id1 ⟨owner, now1, [N]⟩).domains.any
        fun p => p.2.subdomains.contains N) = true :=
      any_setDocList_of id1 ⟨owner, now1, [N]⟩ st.domains _ (by simp)
    simp only [domainExists]
    rw [hlow, hdot, if_neg (by simp : ¬ (false = true)), hany]
  · have hex1 : domainExists (setDoc st id1 ⟨owner, now1, [N]⟩) N = Except.ok true := by
      have hany : ((setDoc st id1 ⟨owner, now1, [N]⟩).domains.any
          fun p => p.2.subdomains.contains N) = true :=
        any_setDocList_of id1 ⟨owner, now1, [N]⟩ st.domains _ (by simp)
      simp only [domainExists]
      rw [hlow, hdot, if_neg (by simp : ¬ (false = true)), hany]
    unfold createSubdomain
    rw [hlow, if_pos hpat, hex1, except_bind_ok]
    rfl

theorem C5_createSubdomain_unique_witness :
    ∃ st', createSubdomain ⟨[], []⟩ "base" "o1" "i1" 0 = Except.ok ("i1", st') ∧
      domainExists st' "base" = Except.ok true ∧
      createSubdomain st' "base" "o2" "i2" 1 = Except.error DnsError.alreadyExists :=
  C5_createSubdomain_unique ⟨[], []⟩ "base" "o1" "o2" "i1" "i2" 0 1 (by decide) (by decide)

/-- The per-document invariant of spec §3: every tracked subdomain is either
a bare label with no dot, or a dotted label whose trailing dot-segment is a
bare (dot-free) label also present in the same set. -/
def SubdomainSetInv (subs : List String) : Prop :=
  ∀ s ∈ subs, hasDot s = false ∨
    (hasDot (jsSplitDotPop s) = false ∧ jsSplitDotPop s ∈ subs)

/-- The invariant holds for every tenant document reachable by id. -/
def StateInv (st : St) : Prop :=
  ∀ id d, getDoc st id = some d → SubdomainSetInv d.subdomains

instance instDecidableSubdomainSetInv (subs : List String) :
    Decidable (SubdomainSetInv subs) :=
  List.decidableBAll _ subs

theorem StateInv_of_forall (st : St)
    (h : ∀ p ∈ st.domains, SubdomainSetInv p.2.subdomains) : StateInv st := by
  intro id d hd
  unfold getDoc at hd
  cases hfind : st.domains.find? (fun p => p.1 == id) with
  | none => rw [hfind] at hd; cases hd
  | some p =>
    rw [hfind] at hd
    have hmem := List.mem_of_find?_eq_some hfind
    have hpd : p.2 = d := by simpa using hd
    rw [← hpd]
    exact h p hmem

theorem except_bind_error {ε α β : Type} (e : ε) (f : α → Except ε β) :
    (Except.error e >>= f : Except ε β) = Except.error e := rfl

/-- C9: every tenant-set mutation — `createSubdomain`, `addSubdomain`,
`removeSubdomain` — preserves the invariant that each element of a tenant's
tracked subdomain set is either a bare label with no dot, or a dotted label
whose trailing dot-segment is a bare label also present in the same set. -/
theorem C9_mutations_preserve_invariant :
    (∀ st N o i now r, StateInv st → createSubdomain st N o i now = Except.ok r →
      StateInv r.2) ∧
    (∀ st id n st', StateInv st → addSubdomain st id n = Except.ok st' → StateInv st') ∧
    (∀ st id n, StateInv st → StateInv (removeSubdomain st id n)) := by
  refine ⟨?_, ?_, ?_⟩
  · intro st N o i now r hinv hok
    simp only [createSubdomain] at hok
    by_cases hp : matchesLabelPattern (jsToLower N) = true
    case neg =>
      rw [if_neg hp] at hok
      cases hok
    case pos =>
      rw [if_pos hp] at hok
      simp only [domainExists] at hok
      rw [matchesLabelPattern_toLower_fixed _ hp] at hok
      rw [matchesLabelPattern_no_dot _ hp, if_neg (by simp : ¬ (false = true)),
        except_bind_ok] at hok
      by_cases hany : (st.domains.any fun p => p.2.subdomains.contains (jsToLower N)) = true
      case pos =>
        rw [if_pos hany] at hok
        cases hok
      case neg =>
        rw [if_neg hany] at hok
        have hr : (i, setDoc st i (⟨o, now, [jsToLower N]⟩ : TenantDoc)) = r :=
          Except.ok.inj hok
        rw [← hr]
        show StateInv (setDoc st i ⟨o, now, [jsToLower N]⟩)
        intro id d hd
        by_cases hid : id = i
        case pos =>
          subst hid
          rw [getDoc_setDoc_self] at hd
          have hdd : (⟨o, now, [jsToLower N]⟩ : TenantDoc) = d := by simpa using hd
          rw [← hdd]
          intro x hx
          have hxe : x = jsToLower N := by simpa using hx
          subst hxe
          exact Or.inl (matchesLabelPattern_no_dot _ hp)
        case neg =>
          rw [getDoc_setDoc_other st i id _ hid] at hd
          exact hinv id d hd
  · intro st id n st' hinv hok
    cases hdoc : getDoc st id with
    | none =>
      have hass : assertSubdomain st id n = Except.error DnsError.noSuchSubdomain := by
        unfold assertSubdomain getAllSubdomains
        rw [hdoc]
        rfl
      unfold addSubdomain at hok
      rw [hass, except_bind_error] at hok
      cases hok
    | some d =>
      unfold addSubdomain at hok
      rw [assertSubdomain_eq st id n d hdoc] at hok
      by_cases hb : d.subdomains.contains (jsSplitDotPop (jsToLower (jsOrEmpty n))) = true
      case neg =>
        rw [if_neg hb, except_bind_error] at hok
        cases hok
      case pos =>
        rw [if_pos hb, except_bind_ok, getAllSubdomains_eq st id d hdoc,
          except_bind_ok] at hok
        by_cases hc : d.subdomains.contains (jsToLower (jsOrEmpty n)) = true
        case pos =>
          rw [if_pos hc] at hok
          have hst : st = st' := Except.ok.inj hok
          rw [← hst]
          exact hinv
        case neg =>
          rw [if_neg hc] at hok
          have hst : updateDoc st id (fun dd => { dd with subdomains := dd.subdomains ++ [jsToLower (jsOrEmpty n)] }) = st' :=
            Except.ok.inj hok
          rw [← hst]
          intro id' d' hd'
          by_cases hid : id' = id
          case pos =>
            subst hid
            rw [getDoc_updateDoc_self, hdoc] at hd'
            have hdd : ({ d with subdomains := d.subdomains ++ [jsToLower (jsOrEmpty n)] } : TenantDoc) = d' := by
              simpa using hd'
            rw [← hdd]
            intro x hx
            rcases List.mem_append.mp hx with hxl | hxr
            · rcases hinv id' d hdoc x hxl with hl | ⟨h1, h2⟩
              · exact Or.inl hl
              · exact Or.inr ⟨h1, List.mem_append_left _ h2⟩
            · have hxe : x = jsToLower (jsOrEmpty n) := by simpa using hxr
              subst hxe
              exact Or.inr ⟨hasDot_jsSplitDotPop _,
                List.mem_append_left _ (mem_of_contains hb)⟩
          case neg =>
            rw [getDoc_updateDoc_other st id id' _ hid] at hd'
            exact hinv id' d' hd'
  · intro st id n hinv
    unfold removeSubdomain
    by_cases hif : jsToLower (jsOrEmpty n) ≠ jsSplitDotPop (jsToLower (jsOrEmpty n))
    case neg =>
      rw [if_neg hif]
      exact hinv
    case pos =>
      rw [if_pos hif]
      have hsdot : hasDot (jsToLower (jsOrEmpty n)) = true := by
        by_contra hne
        have hne' : hasDot (jsToLower (jsOrEmpty n)) = false := by simpa using hne
        exact hif ((jsSplitDotPop_eq_self_iff _).mpr hne').symm
      intro id' d' hd'
      by_cases hid : id' = id
      case pos =>
        subst hid
        rw [getDoc_updateDoc_self] at hd'
        cases hdoc : getDoc st id' with
        | none => rw [hdoc] at hd'; cases hd'
        | some d =>
          rw [hdoc] at hd'
          have hdd : ({ d with subdomains := d.subdomains.filter (· ≠ jsToLower (jsOrEmpty n)) } : TenantDoc) = d' := by
            simpa using hd'
          rw [← hdd]
          intro x hx
          have hx' := List.mem_filter.mp hx
          rcases hinv id' d hdoc x hx'.1 with hl | ⟨h1, h2⟩
          · exact Or.inl hl
          · refine Or.inr ⟨h1, List.mem_filter.mpr ⟨h2, ?_⟩⟩
            simp only [decide_eq_true_eq]
            intro he
            rw [he] at h1
            rw [hsdot] at h1
            cases h1
      case neg =>
        rw [getDoc_updateDoc_other st id id' _ hid] at hd'
        exact hinv id' d' hd'

theorem C9_mutations_preserve_invariant_witness :
    StateInv (("i1", setDoc (⟨[], []⟩ : St) "i1" ⟨"o", 0, ["up"]⟩) : String × St).2 ∧
    StateInv (⟨[("t", ⟨"owner0", 0, ["base", "www.base"]⟩)], []⟩ : St) ∧
    StateInv (removeSubdomain sampleSt "t" (some "www.base")) :=
  ⟨C9_mutations_preserve_invariant.1 ⟨[], []⟩ "up" "o" "i1" 0
      ("i1", setDoc (⟨[], []⟩ : St) "i1" ⟨"o", 0, ["up"]⟩)
      (StateInv_of_forall _ (by decide)) (by decide),
   C9_mutations_preserve_invariant.2.1 sampleSt "t" (some "www.base")
      ⟨[("t", ⟨"owner0", 0, ["base", "www.base"]⟩)], []⟩
      (StateInv_of_forall _ (by decide)) (by decide),
   C9_mutations_preserve_invariant.2.2 sampleSt "t" (some "www.base")
      (StateInv_of_forall _ (by decide))⟩

end UTokyo
